import Mathlib

/-!
Shallow embedding of the glyph compositing and cell-fitting core of
src/kitty/freetype.c: the growable glyph pixel buffer (`ensure_space`,
`apply_bitmap`), the complex-glyph compositor (`draw_complex_glyph`) and
the cell-width trimmer (`trim_to_width`).

Modelling conventions:
- Byte buffers are total functions from flat row-major indices to byte
  values.  C `memcpy` becomes a pointwise function update over the copied
  interval.
- Unsigned machine subtraction `a - b` guarded by the C idiom
  `(a) <= (b) ? 0 : (a) - (b)` (the ZERO_SUB macro) coincides with natural
  subtraction on ℕ.  Where genuine two's-complement wraparound matters
  (the `unsigned long` subtraction `width - cell_width` in trim_to_width)
  it is taken modulo 2^64 explicitly.
- The C `float` cursor of draw_complex_glyph only ever holds integer
  multiples of 1/64 (it accumulates harfbuzz 1/64-pixel fixed-point
  values divided by 64.0, computations that are exact in binary floating
  point for all in-range inputs).  It is therefore modelled exactly as an
  integer number of 1/64 pixel units, with `ceilf` and `roundf` becoming
  the corresponding exact integer operations `ceil64` and `round64`.
- `calloc` is modelled as always succeeding (allocation failure is not a
  functional behaviour of the algorithms under study); a NULL `buf`
  pointer is modelled as `Option.none`.
-/

namespace Kitty

/-- Byte-level model of C `memcpy`: copy `n` bytes from offset `sOff` of
`src` into offset `dOff` of `dst`. -/
def memcpy (dst : ℕ → ℕ) (dOff : ℕ) (src : ℕ → ℕ) (sOff n : ℕ) : ℕ → ℕ :=
  fun i => if dOff ≤ i ∧ i < dOff + n then src (sOff + (i - dOff)) else dst i

/-- The FT_Bitmap / Bitmap struct-sequence fields used by the code:
rows, width, pitch, buffer, num_grays, pixel_mode, palette_mode. -/
structure Bitmap where
  rows : ℕ
  width : ℕ
  pitch : ℕ
  buffer : ℕ → ℕ
  num_grays : ℕ
  pixel_mode : ℕ
  palette_mode : ℕ

/-- The BitmapPoint struct of freetype.c: `size_t x, y`. -/
structure BitmapPoint where
  x : ℕ
  y : ℕ

/-- FT_Glyph_Metrics: the ink metrics of a rasterized glyph. -/
structure Metrics where
  width : ℤ
  height : ℤ
  horiBearingX : ℤ
  horiBearingY : ℤ
  horiAdvance : ℤ
  vertBearingX : ℤ
  vertBearingY : ℤ
  vertAdvance : ℤ
deriving DecidableEq

/-- Zero-initialized metrics, as produced by `GlyphBuffer g = {0};`. -/
def Metrics.zero : Metrics := ⟨0, 0, 0, 0, 0, 0, 0, 0⟩

/-- The GlyphBuffer struct of freetype.c: a growable single-channel pixel
canvas plus the representative metrics.  `buf = none` models a NULL
pointer. -/
structure GlyphBuffer where
  buf : Option (ℕ → ℕ)
  width : ℕ
  height : ℕ
  metrics : Metrics

/-- Read a byte of the canvas; a NULL buffer reads as zero (the code never
actually dereferences a NULL buffer because its dimensions are then 0). -/
def GlyphBuffer.bufAt (g : GlyphBuffer) (i : ℕ) : ℕ :=
  (g.buf.getD fun _ => 0) i

/-- The zero-initialized GlyphBuffer `g = {0}`. -/
def GlyphBuffer.init : GlyphBuffer := ⟨none, 0, 0, Metrics.zero⟩

/-- The row-copy loop of `ensure_space`:
`for (r = 0; r < rows; r++) memcpy(newbuf + r*newW, old + r*oldW, oldW);`. -/
def copyRows (old : ℕ → ℕ) (oldW newW rows : ℕ) (nb : ℕ → ℕ) : ℕ → ℕ :=
  (List.range rows).foldl (fun b r => memcpy b (r * newW) old (r * oldW) oldW) nb

/-- `ensure_space` of freetype.c, with allocation modelled as always
succeeding: a no-op when the current dimensions cover the request,
otherwise a fresh zero-filled buffer of the requested dimensions into
which every existing row is copied at the same row index. -/
def ensure_space (g : GlyphBuffer) (width height : ℕ) : GlyphBuffer :=
  if width ≤ g.width ∧ height ≤ g.height then g
  else
    { g with
      buf := some (copyRows (g.buf.getD fun _ => 0) g.width width g.height fun _ => 0),
      width := width, height := height }

/-- The buffer effect of `apply_bitmap` on a canvas of dimensions `W × H`:
clip the copied column count to `MIN(ZERO_SUB(W, dest.x), ZERO_SUB(pitch, src.x))`
and copy row by row while `sy < rows && dy < H`.  Faithful to the source,
each row copy reads from `src + sy * src_width` (the source x-origin is
not added to the source offset, it only enters the width clip). -/
def applyBitmapBuf (buf : ℕ → ℕ) (W H : ℕ) (bmp : Bitmap)
    (srcS destS : BitmapPoint) : ℕ → ℕ :=
  let sw := bmp.pitch
  let w := min (W - destS.x) (sw - srcS.x)
  let n := min (bmp.rows - srcS.y) (H - destS.y)
  (List.range n).foldl
    (fun b j => memcpy b (destS.x + (destS.y + j) * W) bmp.buffer ((srcS.y + j) * sw) w)
    buf

/-- `apply_bitmap` of freetype.c lifted to a GlyphBuffer: writes through
the canvas buffer pointer (a NULL buffer stays NULL; in that case the
canvas dimensions are 0 and the loop performs no writes). -/
def apply_bitmap (g : GlyphBuffer) (bmp : Bitmap) (srcS destS : BitmapPoint) :
    GlyphBuffer :=
  { g with buf := g.buf.map fun b => applyBitmapBuf b g.width g.height bmp srcS destS }

/-- FT_PIXEL_MODE_GRAY. -/
def FT_PIXEL_MODE_GRAY : ℕ := 2

/-- Ceiling of `a / 64`: the exact value of C `ceilf(v)` when the float
`v` holds the 1/64-pixel fixed-point quantity `a`. -/
def ceil64 (a : ℤ) : ℤ := (a + 63).ediv 64

/-- Rounding of `a / 64` half away from zero, for `a ≥ 0`: the exact value
of C `roundf(v)` when the nonnegative float `v` holds the 1/64-pixel
fixed-point quantity `a`. -/
def round64 (a : ℤ) : ℤ := (a + 32).ediv 64

/-- One shaped glyph of the run together with the Rasterizer collaborator's
response for it (the bitmap and ink metrics that `_load_char` would leave
in the face's glyph slot).  Offsets and advances are harfbuzz 1/64-pixel
fixed-point integers. -/
structure GlyphInput where
  codepoint : ℕ
  x_offset : ℤ
  y_offset : ℤ
  x_advance : ℤ
  y_advance : ℤ
  bitmap : Bitmap
  metrics : Metrics

/-- The loop state of `draw_complex_glyph`: the float cursor `(x, y)`,
held exactly as an integer count of 1/64 pixel units, the running
bounding box `width`, `height`, and the GlyphBuffer `g`. -/
structure CState where
  x : ℤ
  y : ℤ
  width : ℕ
  height : ℕ
  g : GlyphBuffer

/-- The initial loop state: `x = 0, y = 0, width = 0, height = 0, g = {0}`. -/
def CState.init : CState := ⟨0, 0, 0, 0, GlyphBuffer.init⟩

/-- Errors raised by draw_complex_glyph: an unsupported pixel mode, or no
glyphs placed (NULL buffer at the end). -/
inductive CompositeError where
  | unsupportedPixelFormat
  | emptyShapeResult
deriving DecidableEq

/-- The state produced by one non-skipped, non-erroring iteration of the
glyph loop of `draw_complex_glyph` for the glyph at position `i`: capture
metrics when `i == 0`; advance the cursor by the shaping offset; grow the
bounding box with `ceilf`; call `ensure_space`; compute the
source/destination origins; place the bitmap; add the x advance and reset
`y` to 0. -/
def placeGlyph (i : ℕ) (st : CState) (gl : GlyphInput) : CState :=
  let g0 := if i = 0 then { st.g with metrics := gl.metrics } else st.g
  let x : ℤ := st.x + gl.x_offset
  let y : ℤ := st.y - gl.y_offset
  let width := max st.width (ceil64 (x + 64 * gl.bitmap.pitch)).toNat
  let height := max st.height (ceil64 (y + 64 * gl.bitmap.rows)).toNat
  let g1 := ensure_space g0 width height
  let src : BitmapPoint :=
    ⟨if x < 0 then (ceil64 (-x)).toNat else 0,
     if y < 0 then (ceil64 (-y)).toNat else 0⟩
  let dest : BitmapPoint :=
    ⟨if x < 0 then 0 else (round64 x).toNat,
     if y < 0 then 0 else (round64 y).toNat⟩
  let g2 := apply_bitmap g1 gl.bitmap src dest
  { x := x + gl.x_advance, y := 0, width := width, height := height, g := g2 }

/-- One iteration of the glyph loop of `draw_complex_glyph`: skip glyph
id 0; reject non-gray pixel modes (in the source this test sits between
the canvas grow and the placement, but the whole draw aborts on that
error with the state discarded, so testing it first is observationally
identical); otherwise produce the placed state. -/
def drawStep (i : ℕ) (st : CState) (gl : GlyphInput) :
    Except CompositeError CState :=
  if gl.codepoint = 0 then .ok st
  else if gl.bitmap.pixel_mode ≠ FT_PIXEL_MODE_GRAY then .error .unsupportedPixelFormat
  else .ok (placeGlyph i st gl)

/-- The glyph loop of `draw_complex_glyph`, starting at glyph index `i`. -/
def drawRun (i : ℕ) (st : CState) : List GlyphInput → Except CompositeError CState
  | [] => .ok st
  | gl :: rest => do
      let st' ← drawStep i st gl
      drawRun (i + 1) st' rest

/-- The value returned by a successful draw_complex_glyph call: the pixel
bytes, the representative metrics, and the canvas dimensions. -/
structure CompResult where
  pixels : ℕ → ℕ
  metrics : Metrics
  width : ℕ
  height : ℕ

/-- `draw_complex_glyph` of freetype.c over an already-shaped glyph run:
run the glyph loop from the zero state and fail with `emptyShapeResult`
when the buffer pointer is still NULL at the end. -/
def draw_complex_glyph (gs : List GlyphInput) : Except CompositeError CompResult := do
  let st ← drawRun 0 CState.init gs
  match st.g.buf with
  | none => .error .emptyShapeResult
  | some b => .ok ⟨b, st.g.metrics, st.g.width, st.g.height⟩

/-- Unsigned 64-bit subtraction `a - b` with two's-complement wraparound,
as performed on `unsigned long` in trim_to_width. -/
def subUL (a b : ℕ) : ℕ := (((a : ℤ) - (b : ℤ)) % (2 ^ 64 : ℤ)).toNat

/-- The inner column scan of trim_to_width: does column `x` contain a pixel
of intensity above 200 in any of the `rows` rows (row stride `width`)? -/
def column_has_text (src : ℕ → ℕ) (rows width x : ℕ) : Bool :=
  (List.range rows).any fun yy => 200 < src (x + yy * width)

/-- The right-trim scan of trim_to_width: walk columns from the right
(column `fuel - 1` downward), counting blank columns into `acc`, stopping
at the first column with text, at the left edge, or once `acc` reaches
`extra`. -/
def rtrimLoop (hasText : ℕ → Bool) (extra : ℕ) : ℕ → ℕ → ℕ
  | 0, acc => acc
  | x + 1, acc =>
      if acc < extra then
        if hasText x then acc else rtrimLoop hasText extra x (acc + 1)
      else acc

/-- The rtrim value computed by trim_to_width's scan loop for a bitmap. -/
def rtrimOf (bmp : Bitmap) (extra : ℕ) : ℕ :=
  rtrimLoop (column_has_text bmp.buffer bmp.rows bmp.width) extra bmp.width 0

/-- The trim error of trim_to_width ("Too large for trimming"). -/
inductive TrimError where
  | trimOverflow
deriving DecidableEq

/-- The successful result of trim_to_width: width and pitch set to
`cell_width`, rows / num_grays / pixel_mode / palette_mode passed through,
and every output row `y` copied from `cell_width` source bytes starting at
column `ltrim` of source row `y`. -/
def trimmed (bmp : Bitmap) (cell_width : ℕ) : Bitmap :=
  let extra := subUL bmp.width cell_width
  let rtrim := min extra (rtrimOf bmp extra)
  let ltrim := extra - rtrim
  { rows := bmp.rows, width := cell_width, pitch := cell_width,
    buffer := fun i => bmp.buffer (ltrim + (i / cell_width) * bmp.width + i % cell_width),
    num_grays := bmp.num_grays, pixel_mode := bmp.pixel_mode,
    palette_mode := bmp.palette_mode }

/-- `trim_to_width` of freetype.c: fail with `trimOverflow` when
`extra >= cell_width` (with `extra = width - cell_width` computed on
unsigned longs), otherwise trim `extra` columns split between the right
(blank columns) and the left (the remainder). -/
def trim_to_width (bmp : Bitmap) (cell_width : ℕ) : Except TrimError Bitmap :=
  let extra := subUL bmp.width cell_width
  if cell_width ≤ extra then .error .trimOverflow
  else .ok (trimmed bmp cell_width)

/-- Length of the maximal run of consecutive columns, from column
`fuel - 1` leftward, in which `ht` is false: the uncapped blank-column
run length used to characterise the right-trim scan. -/
def runLen (ht : ℕ → Bool) : ℕ → ℕ
  | 0 => 0
  | x + 1 => if ht x then 0 else runLen ht x + 1

/-- A concrete canvas for the C5 witness: a 1×1 canvas holding the byte 9. -/
def c5g : GlyphBuffer := ⟨some (fun i => if i = 0 then 9 else 0), 1, 1, Metrics.zero⟩

/-- A concrete bitmap for the C9 witness: 1×1 gray bitmap of intensity 255. -/
def c9bmp : Bitmap :=
  { rows := 1, width := 1, pitch := 1, buffer := fun _ => 255,
    num_grays := 256, pixel_mode := 2, palette_mode := 0 }

/-- A concrete bitmap for C3: 1 row, width 4, blank pixels. -/
def c3bmp : Bitmap :=
  { rows := 1, width := 4, pitch := 4, buffer := fun _ => 0,
    num_grays := 256, pixel_mode := 2, palette_mode := 0 }

/-- A concrete bitmap for the C4 witness (Scenario B of the spec): 1 row,
width 10, all zero except column 3 which holds 255. -/
def c4bmp : Bitmap :=
  { rows := 1, width := 10, pitch := 10, buffer := fun i => if i = 3 then 255 else 0,
    num_grays := 256, pixel_mode := 2, palette_mode := 0 }

/-- A 1×1 gray glyph of intensity 255 with zero offsets and the given
1/64-pixel x advance, as used in the concrete scenarios. -/
def grayGlyph (adv : ℤ) : GlyphInput :=
  { codepoint := 1, x_offset := 0, y_offset := 0, x_advance := adv, y_advance := 0,
    bitmap := { rows := 1, width := 1, pitch := 1, buffer := fun _ => 255,
                num_grays := 256, pixel_mode := 2, palette_mode := 0 },
    metrics := Metrics.zero }

/-- A shaped-glyph record with glyph id 0 and deliberately nonzero
offsets and advance, which draw_complex_glyph must skip entirely. -/
def zeroGlyph : GlyphInput :=
  { codepoint := 0, x_offset := 3, y_offset := 5, x_advance := 512, y_advance := 0,
    bitmap := { rows := 1, width := 1, pitch := 1, buffer := fun _ => 255,
                num_grays := 256, pixel_mode := 2, palette_mode := 0 },
    metrics := Metrics.zero }

/-- A rasterizable 1×1 gray glyph with distinctive nonzero ink metrics. -/
def inkGlyph : GlyphInput :=
  { codepoint := 5, x_offset := 0, y_offset := 0, x_advance := 512, y_advance := 0,
    bitmap := { rows := 1, width := 1, pitch := 1, buffer := fun _ => 255,
                num_grays := 256, pixel_mode := 2, palette_mode := 0 },
    metrics := ⟨5, 7, 1, 2, 6, 0, 0, 0⟩ }

/-- A source bitmap for the C1 failing input: one row of pitch 2 whose
bytes are 7 (column 0) and 9 (column 1). -/
def c1bmp : Bitmap :=
  { rows := 1, width := 2, pitch := 2,
    buffer := fun i => if i = 0 then 7 else if i = 1 then 9 else 0,
    num_grays := 256, pixel_mode := 2, palette_mode := 0 }

/-- A destination canvas for the C1 failing input: an all-zero 2×1 canvas. -/
def c1canvas : GlyphBuffer := ⟨some (fun _ => 0), 2, 1, Metrics.zero⟩

/-- The loop invariant of draw_complex_glyph relating the running
bounding-box accumulators to the GlyphBuffer dimensions: after every
iteration the buffer has exactly the accumulated dimensions. -/
def InvCS (st : CState) : Prop :=
  st.g.width = st.width ∧ st.g.height = st.height

section Lemmas

/-- A row interval `[r*W, r*W + oldW)` with `oldW ≤ W` contains the cell
index `y*W + x` (with `x < W`) exactly when `y = r` and `x < oldW`. -/
lemma mul_row_iff {W oldW : ℕ} (hoW : oldW ≤ W) {x : ℕ} (hx : x < W) (y r : ℕ) :
    (r * W ≤ y * W + x ∧ y * W + x < r * W + oldW) ↔ (y = r ∧ x < oldW) := by
  constructor
  · rintro ⟨h1, h2⟩
    have hyr : y < r + 1 := by
      have hlt : y * W < (r + 1) * W := by
        calc y * W ≤ y * W + x := Nat.le_add_right _ _
          _ < r * W + oldW := h2
          _ ≤ r * W + W := by omega
          _ = (r + 1) * W := by ring
      exact lt_of_mul_lt_mul_right hlt (Nat.zero_le W)
    have hry : r < y + 1 := by
      have hlt : r * W < (y + 1) * W := by
        calc r * W ≤ y * W + x := h1
          _ < y * W + W := by omega
          _ = (y + 1) * W := by ring
      exact lt_of_mul_lt_mul_right hlt (Nat.zero_le W)
    have hyr' : y = r := by omega
    subst hyr'
    exact ⟨rfl, by omega⟩
  · rintro ⟨rfl, hxo⟩
    exact ⟨Nat.le_add_right _ _, by omega⟩

/-- Pointwise value of the `ensure_space` row-copy loop, assuming the new
row stride is at least the old one: cell `(x, y)` of the new layout holds
the old cell `(x, y)` when that cell existed, and the backing value
otherwise. -/
lemma copyRows_at (old : ℕ → ℕ) (oldW newW : ℕ) (hW : oldW ≤ newW) (nb : ℕ → ℕ)
    (x y : ℕ) (hx : x < newW) :
    ∀ rows, copyRows old oldW newW rows nb (y * newW + x) =
      if y < rows ∧ x < oldW then old (y * oldW + x) else nb (y * newW + x) := by
  intro rows
  induction rows with
  | zero => simp [copyRows]
  | succ r ih =>
      have hstep : copyRows old oldW newW (r + 1) nb =
          memcpy (copyRows old oldW newW r nb) (r * newW) old (r * oldW) oldW := by
        unfold copyRows
        rw [List.range_succ, List.foldl_append, List.foldl_cons, List.foldl_nil]
      rw [hstep]
      unfold memcpy
      by_cases hc : r * newW ≤ y * newW + x ∧ y * newW + x < r * newW + oldW
      · obtain ⟨hy, hxo⟩ := (mul_row_iff hW hx y r).mp hc
        subst hy
        rw [if_pos hc, if_pos ⟨Nat.lt_succ_self _, hxo⟩]
        congr 1
        omega
      · rw [if_neg hc, ih]
        have hiff : (y < r ∧ x < oldW) ↔ (y < r + 1 ∧ x < oldW) := by
          constructor
          · rintro ⟨h1, h2⟩; exact ⟨Nat.lt_succ_of_lt h1, h2⟩
          · rintro ⟨h1, h2⟩
            rcases Nat.lt_succ_iff_lt_or_eq.mp h1 with h | h
            · exact ⟨h, h2⟩
            · exact absurd ((mul_row_iff hW hx y r).mpr ⟨h, h2⟩) hc
        by_cases hcase : y < r ∧ x < oldW
        · rw [if_pos hcase, if_pos (hiff.mp hcase)]
        · rw [if_neg hcase, if_neg (fun hh => hcase (hiff.mpr hh))]

/-- Any index changed by a fold of row `memcpy`s lies inside one of the
copied row intervals. -/
lemma foldl_memcpy_ne (src : ℕ → ℕ) (dOff sOff : ℕ → ℕ) (w : ℕ) :
    ∀ (n : ℕ) (buf : ℕ → ℕ) (i : ℕ),
      (List.range n).foldl (fun b j => memcpy b (dOff j) src (sOff j) w) buf i ≠ buf i →
      ∃ j, j < n ∧ dOff j ≤ i ∧ i < dOff j + w := by
  intro n
  induction n with
  | zero => intro buf i h; simp [List.range_zero] at h
  | succ n ih =>
      intro buf i h
      rw [List.range_succ, List.foldl_append, List.foldl_cons, List.foldl_nil] at h
      by_cases hc : dOff n ≤ i ∧ i < dOff n + w
      · exact ⟨n, Nat.lt_succ_self n, hc.1, hc.2⟩
      · have hm : memcpy ((List.range n).foldl
            (fun b j => memcpy b (dOff j) src (sOff j) w) buf) (dOff n) src (sOff n) w i =
            (List.range n).foldl (fun b j => memcpy b (dOff j) src (sOff j) w) buf i := by
          unfold memcpy
          rw [if_neg hc]
        rw [hm] at h
        obtain ⟨j, hj, h1, h2⟩ := ih buf i h
        exact ⟨j, Nat.lt_succ_of_lt hj, h1, h2⟩

end Lemmas

section ClaimC5

/-- Claim C5: for every PixelCanvas and every grow to a larger width
and/or height, every pixel previously written at coordinate `(x, y)`
within the old dimensions has the same value at the same `(x, y)`
coordinate afterward (same row index, same leading-column offset under
the new row stride), every newly exposed pixel is zero, and a request
already covered by the current dimensions changes nothing. -/
theorem c5_ensure_space_preserves (g : GlyphBuffer) (w h : ℕ) :
    (w ≤ g.width → h ≤ g.height → ensure_space g w h = g) ∧
    (g.width ≤ w → g.height ≤ h → ¬(w ≤ g.width ∧ h ≤ g.height) →
      (ensure_space g w h).width = w ∧ (ensure_space g w h).height = h ∧
      (∀ x y, x < g.width → y < g.height →
        (ensure_space g w h).bufAt (y * w + x) = g.bufAt (y * g.width + x)) ∧
      (∀ x y, x < w → y < h → ¬(x < g.width ∧ y < g.height) →
        (ensure_space g w h).bufAt (y * w + x) = 0)) := by
  constructor
  · intro hw hh
    unfold ensure_space
    rw [if_pos ⟨hw, hh⟩]
  · intro hgw hgh hnc
    unfold ensure_space
    rw [if_neg hnc]
    refine ⟨rfl, rfl, ?_, ?_⟩
    · intro x y hx hy
      show copyRows (g.buf.getD fun _ => 0) g.width w g.height (fun _ => 0) (y * w + x) =
        (g.buf.getD fun _ => 0) (y * g.width + x)
      rw [copyRows_at _ _ _ hgw _ x y (lt_of_lt_of_le hx hgw) g.height,
        if_pos ⟨hy, hx⟩]
    · intro x y hx hy hout
      show copyRows (g.buf.getD fun _ => 0) g.width w g.height (fun _ => 0) (y * w + x) = 0
      rw [copyRows_at _ _ _ hgw _ x y hx g.height,
        if_neg (fun hh' => hout ⟨hh'.2, hh'.1⟩)]

/-- Witness for C5: growing the concrete 1×1 canvas to 2×2 keeps pixel
`(0, 0)` (value 9) and zero-fills the newly exposed pixel `(1, 1)`. -/
theorem c5_ensure_space_preserves_witness :
    (ensure_space c5g 2 2).width = 2 ∧ (ensure_space c5g 2 2).height = 2 ∧
    (ensure_space c5g 2 2).bufAt (0 * 2 + 0) = c5g.bufAt (0 * 1 + 0) ∧
    (ensure_space c5g 2 2).bufAt (1 * 2 + 1) = 0 := by
  have h := (c5_ensure_space_preserves c5g 2 2).2 (by decide) (by decide) (by decide)
  exact ⟨h.1, h.2.1, h.2.2.1 0 0 (by decide) (by decide),
    h.2.2.2 1 1 (by decide) (by decide) (by decide)⟩

end ClaimC5

section ClaimC9

/-- Claim C9: for every destination canvas, source bitmap and pair of
origins, `apply_bitmap` writes only to byte positions strictly within the
destination buffer of size `width * height`, each write landing in the
copied span of its own destination row; when the clipped width or the row
range is empty it writes nothing at all. -/
theorem c9_apply_bitmap_safe (buf : ℕ → ℕ) (W H : ℕ) (bmp : Bitmap)
    (srcS destS : BitmapPoint) :
    (∀ i, applyBitmapBuf buf W H bmp srcS destS i ≠ buf i →
      i < W * H ∧ ∃ dy, destS.y ≤ dy ∧ dy < H ∧
        dy * W + destS.x ≤ i ∧ i < dy * W + W) ∧
    (min (W - destS.x) (bmp.pitch - srcS.x) = 0 →
      ∀ i, applyBitmapBuf buf W H bmp srcS destS i = buf i) ∧
    (min (bmp.rows - srcS.y) (H - destS.y) = 0 →
      ∀ i, applyBitmapBuf buf W H bmp srcS destS i = buf i) := by
  have key : ∀ i, applyBitmapBuf buf W H bmp srcS destS i ≠ buf i →
      ∃ j, j < min (bmp.rows - srcS.y) (H - destS.y) ∧
        destS.x + (destS.y + j) * W ≤ i ∧
        i < destS.x + (destS.y + j) * W + min (W - destS.x) (bmp.pitch - srcS.x) := by
    intro i h
    exact foldl_memcpy_ne bmp.buffer (fun j => destS.x + (destS.y + j) * W)
      (fun j => (srcS.y + j) * bmp.pitch) (min (W - destS.x) (bmp.pitch - srcS.x))
      (min (bmp.rows - srcS.y) (H - destS.y)) buf i h
  refine ⟨?_, ?_, ?_⟩
  · intro i h
    obtain ⟨j, hj, h1, h2⟩ := key i h
    have hdy : destS.y + j < H := by
      have := min_le_right (bmp.rows - srcS.y) (H - destS.y)
      omega
    have hwle : min (W - destS.x) (bmp.pitch - srcS.x) ≤ W - destS.x :=
      min_le_left _ _
    have hrow : i < (destS.y + j) * W + W := by omega
    refine ⟨?_, destS.y + j, Nat.le_add_right _ _, hdy, by omega, hrow⟩
    calc i < (destS.y + j) * W + W := hrow
      _ = (destS.y + j + 1) * W := by ring
      _ ≤ H * W := Nat.mul_le_mul_right W hdy
      _ = W * H := Nat.mul_comm H W
  · intro hw i
    by_contra hne
    obtain ⟨j, hj, h1, h2⟩ := key i hne
    omega
  · intro hn i
    by_contra hne
    obtain ⟨j, hj, h1, h2⟩ := key i hne
    omega

/-- Witness for C9: placing the concrete 1×1 bitmap at the origin of an
all-zero 2×1 canvas changes index 0, and that index is inside the buffer
and inside destination row 0. -/
theorem c9_apply_bitmap_safe_witness :
    0 < 2 * 1 ∧ ∃ dy, (0 : ℕ) ≤ dy ∧ dy < 1 ∧
      dy * 2 + 0 ≤ 0 ∧ (0 : ℕ) < dy * 2 + 2 := by
  have h := (c9_apply_bitmap_safe (fun _ => 0) 2 1 c9bmp ⟨0, 0⟩ ⟨0, 0⟩).1 0 (by decide)
  exact h

end ClaimC9

section TrimLemmas

/-- Unsigned subtraction of equal values is zero. -/
lemma subUL_self (a : ℕ) : subUL a a = 0 := by
  unfold subUL
  simp

/-- For in-range operands with no borrow, the unsigned 64-bit subtraction
agrees with natural subtraction. -/
lemma subUL_eq {a b : ℕ} (hle : b ≤ a) (ha : a < 2 ^ 64) : subUL a b = a - b := by
  unfold subUL
  have h0 : (0 : ℤ) ≤ (a : ℤ) - (b : ℤ) := by
    omega
  have h1 : (a : ℤ) - (b : ℤ) < (2 ^ 64 : ℤ) := by
    push_cast
    omega
  rw [Int.emod_eq_of_lt h0 h1]
  omega

/-- Unfolding of `runLen` at a successor. -/
lemma runLen_succ (ht : ℕ → Bool) (x : ℕ) :
    runLen ht (x + 1) = if ht x then 0 else runLen ht x + 1 := rfl

/-- Unfolding of `rtrimLoop` at a successor. -/
lemma rtrimLoop_succ (ht : ℕ → Bool) (extra x acc : ℕ) :
    rtrimLoop ht extra (x + 1) acc =
      if acc < extra then
        if ht x then acc else rtrimLoop ht extra x (acc + 1)
      else acc := rfl

/-- The blank run length never exceeds the number of columns. -/
lemma runLen_le (ht : ℕ → Bool) : ∀ fuel, runLen ht fuel ≤ fuel := by
  intro fuel
  induction fuel with
  | zero => exact le_refl 0
  | succ x ih =>
      rw [runLen_succ]
      by_cases h : ht x
      · rw [if_pos h]; omega
      · rw [if_neg h]; omega

/-- Every column inside the blank run is indeed blank. -/
lemma runLen_blank (ht : ℕ → Bool) : ∀ fuel j, j < runLen ht fuel →
    ht (fuel - 1 - j) = false := by
  intro fuel
  induction fuel with
  | zero => intro j hj; simp [runLen] at hj
  | succ x ih =>
      intro j hj
      rw [runLen_succ] at hj
      by_cases h : ht x
      · rw [if_pos h] at hj; omega
      · rw [if_neg h] at hj
        rcases Nat.eq_zero_or_pos j with hj0 | hj1
        · subst hj0
          simpa using h
        · have hjx : j ≤ x := by
            have := runLen_le ht x
            omega
          have heq : (x + 1) - 1 - j = x - 1 - (j - 1) := by omega
          rw [heq]
          exact ih (j - 1) (by omega)

/-- When the blank run stops before the left edge, the next column to the
left of the run has text. -/
lemma runLen_stop (ht : ℕ → Bool) : ∀ fuel, runLen ht fuel < fuel →
    ht (fuel - 1 - runLen ht fuel) = true := by
  intro fuel
  induction fuel with
  | zero => intro h; omega
  | succ x ih =>
      intro h
      by_cases hx : ht x
      · rw [runLen_succ, if_pos hx]
        simpa using hx
      · rw [runLen_succ, if_neg hx] at h ⊢
        have heq : (x + 1) - 1 - (runLen ht x + 1) = x - 1 - runLen ht x := by omega
        rw [heq]
        exact ih (by omega)

/-- The right-trim scan computes the blank run length capped at `extra`
(plus the incoming accumulator). -/
lemma rtrimLoop_eq (ht : ℕ → Bool) (extra : ℕ) : ∀ fuel acc,
    rtrimLoop ht extra fuel acc =
      if acc < extra then min extra (acc + runLen ht fuel) else acc := by
  intro fuel
  induction fuel with
  | zero =>
      intro acc
      show acc = if acc < extra then min extra (acc + runLen ht 0) else acc
      by_cases h : acc < extra
      · rw [if_pos h]
        show acc = min extra (acc + 0)
        omega
      · rw [if_neg h]
  | succ x ih =>
      intro acc
      rw [rtrimLoop_succ, runLen_succ]
      by_cases hae : acc < extra
      · rw [if_pos hae, if_pos hae]
        by_cases hht : ht x
        · rw [if_pos hht, if_pos hht]
          omega
        · rw [if_neg hht, if_neg hht, ih (acc + 1)]
          by_cases h2 : acc + 1 < extra
          · rw [if_pos h2]
            omega
          · rw [if_neg h2]
            omega
      · rw [if_neg hae, if_neg hae]

/-- Unfolding of `trim_to_width` to its overflow test. -/
lemma trim_to_width_eq (bmp : Bitmap) (cw : ℕ) :
    trim_to_width bmp cw =
      if cw ≤ subUL bmp.width cw then .error .trimOverflow
      else .ok (trimmed bmp cw) := rfl

/-- Unfolding of the output buffer of `trimmed`. -/
lemma trimmed_buffer (bmp : Bitmap) (cw i : ℕ) :
    (trimmed bmp cw).buffer i =
      bmp.buffer ((subUL bmp.width cw -
          min (subUL bmp.width cw) (rtrimOf bmp (subUL bmp.width cw))) +
        (i / cw) * bmp.width + i % cw) := rfl

/-- Bool characterisation of a column with text. -/
lemma column_has_text_true_iff (src : ℕ → ℕ) (rows width x : ℕ) :
    column_has_text src rows width x = true ↔
      ∃ y, y < rows ∧ 200 < src (x + y * width) := by
  unfold column_has_text
  rw [List.any_eq_true]
  constructor
  · rintro ⟨y, hy, hp⟩
    exact ⟨y, List.mem_range.mp hy, of_decide_eq_true hp⟩
  · rintro ⟨y, hy, hp⟩
    exact ⟨y, List.mem_range.mpr hy, decide_eq_true hp⟩

/-- Bool characterisation of a blank column. -/
lemma column_has_text_false_iff (src : ℕ → ℕ) (rows width x : ℕ) :
    column_has_text src rows width x = false ↔
      ∀ y, y < rows → src (x + y * width) ≤ 200 := by
  rw [← Bool.not_eq_true, column_has_text_true_iff]
  push_neg
  constructor
  · intro h y hy
    exact h y hy
  · intro h y hy
    exact h y hy

end TrimLemmas

section ClaimC3

/-- Counterexample to claim C3: on an input bitmap whose width equals the
requested cell width (width = cell_width = 4, so extra = 0), trim_to_width
returns a result instead of failing. -/
theorem c3_counterexample : trim_to_width c3bmp 4 = .ok (trimmed c3bmp 4) := rfl

/-- Claim C3 as amended: for an input bitmap whose width equals the
requested positive cell width, trim_to_width is in range (extra = 0), does
not fail, and returns the input rows copied unchanged; it fails only when
extra = width - cell_width reaches cell_width. -/
theorem c3_amended_matching_width_noop (bmp : Bitmap) (cw : ℕ)
    (hw : bmp.width = cw) (h0 : 0 < cw) :
    trim_to_width bmp cw = .ok (trimmed bmp cw) ∧
    (trimmed bmp cw).width = cw ∧
    (∀ i, i < bmp.rows * cw → (trimmed bmp cw).buffer i = bmp.buffer i) := by
  subst hw
  have hex : subUL bmp.width bmp.width = 0 := subUL_self bmp.width
  refine ⟨?_, rfl, ?_⟩
  · rw [trim_to_width_eq, hex, if_neg (by omega)]
  · intro i _
    rw [trimmed_buffer, hex]
    simp only [Nat.zero_sub, Nat.zero_min, Nat.zero_add]
    congr 1
    rw [Nat.mul_comm]
    exact Nat.div_add_mod i bmp.width

/-- Witness for the amended C3: the concrete width-4 bitmap with
cell_width 4 succeeds and byte 0 of the output equals byte 0 of the
input. -/
theorem c3_amended_matching_width_noop_witness :
    trim_to_width c3bmp 4 = .ok (trimmed c3bmp 4) ∧
    (trimmed c3bmp 4).width = 4 ∧
    (∀ i, i < c3bmp.rows * 4 → (trimmed c3bmp 4).buffer i = c3bmp.buffer i) :=
  c3_amended_matching_width_noop c3bmp 4 rfl (by decide)

end ClaimC3

section ClaimC4

/-- Claim C4: for every input bitmap with cell_width < width < 2*cell_width,
trim_to_width succeeds; right_trim is a count of consecutive blank columns
from the rightmost leftward (every pixel of a counted column is ≤ 200),
stopping at the first non-blank column (when the cap is not reached, the
column immediately left of the run has a pixel above 200) and capped at
extra = width - cell_width; left_trim = extra - right_trim; and output row
`y` consists of exactly the cell_width contiguous source bytes of row `y`
starting at column left_trim, so ink at source column `c` with
left_trim ≤ c < left_trim + cell_width appears at output index
c - left_trim.  The hypothesis width < 2^64 reflects the unsigned-long
input domain. -/
theorem c4_trim_characterisation (bmp : Bitmap) (cw : ℕ)
    (h1 : cw < bmp.width) (h2 : bmp.width < 2 * cw) (h64 : bmp.width < 2 ^ 64) :
    trim_to_width bmp cw = .ok (trimmed bmp cw) ∧
    (∀ extra rtrim ltrim, extra = bmp.width - cw →
      rtrim = min extra (rtrimOf bmp extra) → ltrim = extra - rtrim →
      rtrim ≤ extra ∧
      (∀ j, j < rtrim → ∀ y, y < bmp.rows →
        bmp.buffer ((bmp.width - 1 - j) + y * bmp.width) ≤ 200) ∧
      (rtrim < extra → ∃ y, y < bmp.rows ∧
        200 < bmp.buffer ((bmp.width - 1 - rtrim) + y * bmp.width)) ∧
      (∀ y, y < bmp.rows → ∀ c, ltrim ≤ c → c < ltrim + cw →
        (trimmed bmp cw).buffer (y * cw + (c - ltrim)) =
          bmp.buffer (y * bmp.width + c))) := by
  have hcw : 0 < cw := by omega
  have hex : subUL bmp.width cw = bmp.width - cw := subUL_eq (le_of_lt h1) h64
  have hlt : bmp.width - cw < cw := by omega
  set ht := column_has_text bmp.buffer bmp.rows bmp.width with hht
  have hpos : 0 < bmp.width - cw := by omega
  have hrt : rtrimOf bmp (bmp.width - cw) = min (bmp.width - cw) (runLen ht bmp.width) := by
    unfold rtrimOf
    rw [← hht, rtrimLoop_eq, if_pos (by omega), Nat.zero_add]
  constructor
  · rw [trim_to_width_eq, hex, if_neg (by omega)]
  · intro extra rtrim ltrim hE hR hL
    subst hE
    have hrtrim : rtrim = min (bmp.width - cw) (runLen ht bmp.width) := by
      rw [hR, hrt]
      omega
    refine ⟨by omega, ?_, ?_, ?_⟩
    · intro j hj y hy
      have hjr : j < runLen ht bmp.width := by omega
      have hb := runLen_blank ht bmp.width j hjr
      rw [hht, column_has_text_false_iff] at hb
      exact hb y hy
    · intro hcap
      have hrun : rtrim = runLen ht bmp.width := by omega
      have hless : runLen ht bmp.width < bmp.width := by omega
      have hs := runLen_stop ht bmp.width (by omega)
      rw [hht, column_has_text_true_iff] at hs
      obtain ⟨y, hy, hp⟩ := hs
      rw [hrun]
      exact ⟨y, hy, hp⟩
    · intro y hy c hc1 hc2
      have hd : c - ltrim < cw := by omega
      rw [trimmed_buffer, hex, ← hR]
      have hdiv : (y * cw + (c - ltrim)) / cw = y := by
        rw [Nat.add_comm, Nat.add_mul_div_right _ _ hcw, Nat.div_eq_of_lt hd]
        omega
      have hmod : (y * cw + (c - ltrim)) % cw = c - ltrim := by
        rw [Nat.add_comm, Nat.add_mul_mod_self_right, Nat.mod_eq_of_lt hd]
      rw [hdiv, hmod]
      congr 1
      have hP : ∀ P : ℕ, bmp.width - cw - rtrim + P + (c - ltrim) = P + c := by
        intro P
        omega
      exact hP (y * bmp.width)

/-- Witness for C4 (Scenario B): width 10, cell_width 8, ink only in
column 3; the two rightmost columns are blank, so right_trim = 2,
left_trim = 0, and output byte 3 equals source byte 3 (value 255). -/
theorem c4_trim_characterisation_witness :
    trim_to_width c4bmp 8 = .ok (trimmed c4bmp 8) ∧
    min (c4bmp.width - 8) (rtrimOf c4bmp (c4bmp.width - 8)) = 2 ∧
    (trimmed c4bmp 8).buffer (0 * 8 + (3 - 0)) = c4bmp.buffer (0 * 10 + 3) := by
  have h := c4_trim_characterisation c4bmp 8 (by decide) (by decide) (by decide)
  refine ⟨h.1, by decide, ?_⟩
  exact (h.2 (c4bmp.width - 8) (min (c4bmp.width - 8) (rtrimOf c4bmp (c4bmp.width - 8)))
    ((c4bmp.width - 8) - min (c4bmp.width - 8) (rtrimOf c4bmp (c4bmp.width - 8)))
    rfl rfl rfl).2.2.2 0 (by decide) 3 (by decide) (by decide)

end ClaimC4

section CompositorLemmas

/-- Unfolding of one iteration of the glyph loop. -/
lemma drawRun_cons (i : ℕ) (st : CState) (gl : GlyphInput) (rest : List GlyphInput) :
    drawRun i st (gl :: rest) =
      (drawStep i st gl).bind fun st' => drawRun (i + 1) st' rest := rfl

/-- Unfolding of draw_complex_glyph into the loop and the final NULL
check. -/
lemma draw_complex_glyph_eq (gs : List GlyphInput) :
    draw_complex_glyph gs = (drawRun 0 CState.init gs).bind fun st =>
      match st.g.buf with
      | none => .error .emptyShapeResult
      | some b => .ok ⟨b, st.g.metrics, st.g.width, st.g.height⟩ := rfl

/-- A glyph with id 0 is skipped: the step returns the state unchanged. -/
lemma drawStep_skip (i : ℕ) (st : CState) (gl : GlyphInput)
    (h : gl.codepoint = 0) : drawStep i st gl = .ok st := by
  unfold drawStep
  rw [if_pos h]

/-- Case analysis on a successful step: either the glyph was skipped, or
it was placed. -/
lemma drawStep_ok_cases (i : ℕ) (st : CState) (gl : GlyphInput) (st' : CState)
    (h : drawStep i st gl = .ok st') :
    (gl.codepoint = 0 ∧ st' = st) ∨ (gl.codepoint ≠ 0 ∧ st' = placeGlyph i st gl) := by
  by_cases hcp : gl.codepoint = 0
  · rw [drawStep_skip i st gl hcp] at h
    exact Or.inl ⟨hcp, (Except.ok.inj h).symm⟩
  · right
    refine ⟨hcp, ?_⟩
    unfold drawStep at h
    rw [if_neg hcp] at h
    by_cases hpm : gl.bitmap.pixel_mode ≠ FT_PIXEL_MODE_GRAY
    · rw [if_pos hpm] at h
      exact Except.noConfusion h
    · rw [if_neg hpm] at h
      exact (Except.ok.inj h).symm

/-- ensure_space never touches the stored metrics. -/
lemma ensure_space_metrics (g : GlyphBuffer) (w h : ℕ) :
    (ensure_space g w h).metrics = g.metrics := by
  unfold ensure_space
  by_cases hc : w ≤ g.width ∧ h ≤ g.height
  · rw [if_pos hc]
  · rw [if_neg hc]

/-- Dimensions after ensure_space when the request dominates the current
dimensions: exactly the request. -/
lemma ensure_space_dims (g : GlyphBuffer) (w h : ℕ) (hw : g.width ≤ w)
    (hh : g.height ≤ h) :
    (ensure_space g w h).width = w ∧ (ensure_space g w h).height = h := by
  unfold ensure_space
  by_cases hc : w ≤ g.width ∧ h ≤ g.height
  · rw [if_pos hc]
    exact ⟨by omega, by omega⟩
  · rw [if_neg hc]
    exact ⟨rfl, rfl⟩

/-- The i = 0 metrics capture does not change the buffer width. -/
lemma metricsUpdate_width (i : ℕ) (g : GlyphBuffer) (m : Metrics) :
    (if i = 0 then { g with metrics := m } else g).width = g.width := by
  by_cases h : i = 0
  · rw [if_pos h]
  · rw [if_neg h]

/-- The i = 0 metrics capture does not change the buffer height. -/
lemma metricsUpdate_height (i : ℕ) (g : GlyphBuffer) (m : Metrics) :
    (if i = 0 then { g with metrics := m } else g).height = g.height := by
  by_cases h : i = 0
  · rw [if_pos h]
  · rw [if_neg h]

/-- Metrics stored after a placement: captured from the glyph at index 0,
untouched otherwise. -/
lemma placeGlyph_metrics (i : ℕ) (st : CState) (gl : GlyphInput) :
    (placeGlyph i st gl).g.metrics = if i = 0 then gl.metrics else st.g.metrics := by
  show (ensure_space (if i = 0 then { st.g with metrics := gl.metrics } else st.g)
      (placeGlyph i st gl).width (placeGlyph i st gl).height).metrics = _
  rw [ensure_space_metrics]
  by_cases h : i = 0
  · rw [if_pos h, if_pos h]
  · rw [if_neg h, if_neg h]

/-- The accumulated width never decreases across a placement. -/
lemma placeGlyph_width_mono (i : ℕ) (st : CState) (gl : GlyphInput) :
    st.width ≤ (placeGlyph i st gl).width :=
  le_max_left _ _

/-- The accumulated height never decreases across a placement. -/
lemma placeGlyph_height_mono (i : ℕ) (st : CState) (gl : GlyphInput) :
    st.height ≤ (placeGlyph i st gl).height :=
  le_max_left _ _

/-- The accumulated width after a placement covers the placed glyph's
ceiled right edge. -/
lemma placeGlyph_width_cover (i : ℕ) (st : CState) (gl : GlyphInput) :
    (ceil64 (st.x + gl.x_offset + 64 * gl.bitmap.pitch)).toNat ≤
      (placeGlyph i st gl).width :=
  le_max_right _ _

/-- The accumulated height after a placement covers the placed glyph's
ceiled bottom edge. -/
lemma placeGlyph_height_cover (i : ℕ) (st : CState) (gl : GlyphInput) :
    (ceil64 (st.y - gl.y_offset + 64 * gl.bitmap.rows)).toNat ≤
      (placeGlyph i st gl).height :=
  le_max_right _ _

/-- The placement preserves the loop invariant: the buffer dimensions
equal the accumulated bounding box. -/
lemma placeGlyph_inv (i : ℕ) (st : CState) (gl : GlyphInput) (hinv : InvCS st) :
    InvCS (placeGlyph i st gl) := by
  constructor
  · show (ensure_space (if i = 0 then { st.g with metrics := gl.metrics } else st.g)
        (placeGlyph i st gl).width (placeGlyph i st gl).height).width =
      (placeGlyph i st gl).width
    refine (ensure_space_dims _ _ _ ?_ ?_).1
    · rw [metricsUpdate_width, hinv.1]
      exact placeGlyph_width_mono i st gl
    · rw [metricsUpdate_height, hinv.2]
      exact placeGlyph_height_mono i st gl
  · show (ensure_space (if i = 0 then { st.g with metrics := gl.metrics } else st.g)
        (placeGlyph i st gl).width (placeGlyph i st gl).height).height =
      (placeGlyph i st gl).height
    refine (ensure_space_dims _ _ _ ?_ ?_).2
    · rw [metricsUpdate_width, hinv.1]
      exact placeGlyph_width_mono i st gl
    · rw [metricsUpdate_height, hinv.2]
      exact placeGlyph_height_mono i st gl

/-- One successful step preserves the invariant and never shrinks the
accumulated dimensions. -/
lemma drawStep_inv (i : ℕ) (st : CState) (gl : GlyphInput) (st' : CState)
    (hinv : InvCS st) (h : drawStep i st gl = .ok st') :
    InvCS st' ∧ st.width ≤ st'.width ∧ st.height ≤ st'.height := by
  rcases drawStep_ok_cases i st gl st' h with ⟨_, rfl⟩ | ⟨_, rfl⟩
  · exact ⟨hinv, le_refl _, le_refl _⟩
  · exact ⟨placeGlyph_inv i st gl hinv,
      placeGlyph_width_mono i st gl, placeGlyph_height_mono i st gl⟩

/-- A successful run preserves the invariant and never shrinks the
accumulated dimensions. -/
lemma drawRun_inv : ∀ (gs : List GlyphInput) (i : ℕ) (st st' : CState),
    InvCS st → drawRun i st gs = .ok st' →
    InvCS st' ∧ st.width ≤ st'.width ∧ st.height ≤ st'.height := by
  intro gs
  induction gs with
  | nil =>
      intro i st st' hinv h
      have h' : st = st' := Except.ok.inj h
      subst h'
      exact ⟨hinv, le_refl _, le_refl _⟩
  | cons gl rest ih =>
      intro i st st' hinv h
      rw [drawRun_cons] at h
      cases hs : drawStep i st gl with
      | error e =>
          rw [hs] at h
          exact Except.noConfusion h
      | ok st1 =>
          rw [hs] at h
          have h' : drawRun (i + 1) st1 rest = .ok st' := h
          obtain ⟨h1, h2, h3⟩ := drawStep_inv i st gl st1 hinv hs
          obtain ⟨h4, h5, h6⟩ := ih (i + 1) st1 st' h1 h'
          exact ⟨h4, le_trans h2 h5, le_trans h3 h6⟩

/-- A step at a nonzero glyph index never touches the stored metrics. -/
lemma drawStep_metrics_ne (i : ℕ) (st : CState) (gl : GlyphInput) (st' : CState)
    (hi : i ≠ 0) (h : drawStep i st gl = .ok st') :
    st'.g.metrics = st.g.metrics := by
  rcases drawStep_ok_cases i st gl st' h with ⟨_, rfl⟩ | ⟨_, rfl⟩
  · rfl
  · rw [placeGlyph_metrics, if_neg hi]

/-- A run starting at a nonzero glyph index never touches the stored
metrics. -/
lemma drawRun_metrics_ne : ∀ (gs : List GlyphInput) (i : ℕ) (st st' : CState),
    i ≠ 0 → drawRun i st gs = .ok st' → st'.g.metrics = st.g.metrics := by
  intro gs
  induction gs with
  | nil =>
      intro i st st' _ h
      have h' : st = st' := Except.ok.inj h
      subst h'
      rfl
  | cons gl rest ih =>
      intro i st st' hi h
      rw [drawRun_cons] at h
      cases hs : drawStep i st gl with
      | error e =>
          rw [hs] at h
          exact Except.noConfusion h
      | ok st1 =>
          rw [hs] at h
          have h' : drawRun (i + 1) st1 rest = .ok st' := h
          rw [ih (i + 1) st1 st' (by omega) h', drawStep_metrics_ne i st gl st1 hi hs]

/-- The step at index 0 on a rasterized glyph captures that glyph's
metrics. -/
lemma drawStep_metrics_zero (st : CState) (gl : GlyphInput) (st' : CState)
    (hcp : gl.codepoint ≠ 0) (h : drawStep 0 st gl = .ok st') :
    st'.g.metrics = gl.metrics := by
  rcases drawStep_ok_cases 0 st gl st' h with ⟨hc, _⟩ | ⟨_, rfl⟩
  · exact absurd hc hcp
  · rw [placeGlyph_metrics, if_pos rfl]

/-- A run in which every glyph has id 0 returns its starting state. -/
lemma drawRun_all_zero : ∀ (gs : List GlyphInput) (i : ℕ) (st : CState),
    (∀ g ∈ gs, g.codepoint = 0) → drawRun i st gs = .ok st := by
  intro gs
  induction gs with
  | nil => intro i st _; rfl
  | cons gl rest ih =>
      intro i st h
      rw [drawRun_cons, drawStep_skip i st gl (h gl (List.mem_cons_self gl rest))]
      exact ih (i + 1) st fun g hg => h g (List.mem_cons_of_mem gl hg)

/-- The glyph loop splits over list append, with the glyph index advanced
by the length of the first part. -/
lemma drawRun_append : ∀ (as : List GlyphInput) (i : ℕ) (st : CState)
    (bs : List GlyphInput),
    drawRun i st (as ++ bs) =
      (drawRun i st as).bind fun st' => drawRun (i + as.length) st' bs := by
  intro as
  induction as with
  | nil => intro i st bs; rfl
  | cons a as ih =>
      intro i st bs
      rw [List.cons_append, drawRun_cons, drawRun_cons]
      cases hs : drawStep i st a with
      | error e => rfl
      | ok st1 =>
          show drawRun (i + 1) st1 (as ++ bs) =
            (drawRun (i + 1) st1 as).bind fun st' =>
              drawRun (i + (a :: as).length) st' bs
          rw [ih (i + 1) st1 bs]
          have hlen : (i + 1) + as.length = i + (a :: as).length := by
            rw [List.length_cons]
            omega
          rw [hlen]

/-- The state reached after `pre ++ [gl]` is the one step of `gl` (at
glyph index `pre.length`) from the state reached after `pre`. -/
lemma drawRun_snoc_step (pre : List GlyphInput) (gl : GlyphInput)
    (stPre stPost : CState)
    (hpre : drawRun 0 CState.init pre = .ok stPre)
    (hpost : drawRun 0 CState.init (pre ++ [gl]) = .ok stPost) :
    drawStep pre.length stPre gl = .ok stPost := by
  rw [drawRun_append pre 0 CState.init [gl], hpre] at hpost
  have h : drawRun (0 + pre.length) stPre [gl] = .ok stPost := hpost
  rw [drawRun_cons] at h
  cases hs : drawStep (0 + pre.length) stPre gl with
  | error e =>
      rw [hs] at h
      exact Except.noConfusion h
  | ok st1 =>
      rw [hs] at h
      have h2 : st1 = stPost := Except.ok.inj h
      rw [Nat.zero_add] at hs
      rw [hs, h2]

end CompositorLemmas

section ClaimC1

/-- Claim C1 is violated by the source: `apply_bitmap` reads each copied
row from `src + sy * src_width`, never adding the source x-origin, which
only enters the clipped width.  On a 2×1 all-zero canvas, a source row
[7, 9] with src_origin = (1, 0) and dest_origin = (0, 0) yields canvas
byte 7 (source column 0) at destination column 0, while the claim
requires the source byte at column src_origin.x = 1, namely 9. -/
theorem c1_source_origin_ignored :
    (apply_bitmap c1canvas c1bmp ⟨1, 0⟩ ⟨0, 0⟩).bufAt 0 = 7 ∧
    c1bmp.buffer (0 * c1bmp.pitch + 1) = 9 ∧ (7 : ℕ) ≠ 9 := by
  decide

end ClaimC1

section ClaimC2

/-- Counterexample to claim C2: with a leading glyph of id 0 followed by
a rasterized glyph carrying nonzero ink metrics, draw_complex_glyph
succeeds but returns the zero-initialized metrics, not the metrics of the
first rasterized glyph. -/
theorem c2_counterexample :
    ((draw_complex_glyph [zeroGlyph, inkGlyph]).map (fun o => o.metrics)).toOption =
      some Metrics.zero ∧ Metrics.zero ≠ inkGlyph.metrics := by
  decide

/-- Claim C2 as amended: the returned representative metrics are the ink
metrics of the sequence's first glyph when that glyph is rasterized
(glyph id ≠ 0); when the first glyph has glyph id 0, no metrics are ever
captured and the zero-initialized metrics are returned, regardless of the
glyphs rasterized later. -/
theorem c2_amended_first_slot_metrics (g0 : GlyphInput) (rest : List GlyphInput)
    (out : CompResult) (h : draw_complex_glyph (g0 :: rest) = .ok out) :
    (g0.codepoint ≠ 0 → out.metrics = g0.metrics) ∧
    (g0.codepoint = 0 → out.metrics = Metrics.zero) := by
  rw [draw_complex_glyph_eq] at h
  cases hrun : drawRun 0 CState.init (g0 :: rest) with
  | error e =>
      rw [hrun] at h
      exact Except.noConfusion h
  | ok stF =>
      rw [hrun] at h
      rw [drawRun_cons] at hrun
      cases hs : drawStep 0 CState.init g0 with
      | error e =>
          rw [hs] at hrun
          exact Except.noConfusion hrun
      | ok st1 =>
          rw [hs] at hrun
          have hrest : drawRun 1 st1 rest = .ok stF := hrun
          have hm : stF.g.metrics = st1.g.metrics :=
            drawRun_metrics_ne rest 1 st1 stF (by omega) hrest
          have hout : out.metrics = stF.g.metrics := by
            have h2 : (match stF.g.buf with
                | none => (.error .emptyShapeResult : Except CompositeError CompResult)
                | some b => .ok ⟨b, stF.g.metrics, stF.g.width, stF.g.height⟩) =
                .ok out := h
            cases hbuf : stF.g.buf with
            | none =>
                rw [hbuf] at h2
                exact Except.noConfusion h2
            | some b =>
                rw [hbuf] at h2
                have h3 : (⟨b, stF.g.metrics, stF.g.width, stF.g.height⟩ : CompResult) =
                    out := Except.ok.inj h2
                rw [← h3]
          constructor
          · intro hcp
            rw [hout, hm, drawStep_metrics_zero CState.init g0 st1 hcp hs]
          · intro hcp
            rw [drawStep_skip 0 CState.init g0 hcp] at hs
            have h4 : CState.init = st1 := Except.ok.inj hs
            rw [hout, hm, ← h4]
            rfl

/-- Witness for the amended C2: a single rasterized glyph with nonzero
ink metrics yields exactly those metrics. -/
theorem c2_amended_first_slot_metrics_witness :
    ((draw_complex_glyph [inkGlyph]).map fun o => o.metrics) = .ok inkGlyph.metrics := by
  cases hE : draw_complex_glyph [inkGlyph] with
  | error e =>
      have hsome : (draw_complex_glyph [inkGlyph]).toOption.isSome = true := by decide
      rw [hE] at hsome
      exact Bool.noConfusion hsome
  | ok out =>
      have h := (c2_amended_first_slot_metrics inkGlyph [] out hE).1 (by decide)
      show Except.ok out.metrics = Except.ok inkGlyph.metrics
      rw [h]

end ClaimC2

section ClaimC6

/-- Counterexample to claim C6: with x_advance values 0*64 then 8*64 (in
that order), the advance of a glyph is added only after the glyph is
placed, so both glyphs land at column 0 and the resulting canvas is one
column wide, not at least nine. -/
theorem c6_counterexample :
    ((draw_complex_glyph [grayGlyph 0, grayGlyph 512]).map fun o => o.width).toOption =
      some 1 ∧ ¬ (9 ≤ 1) := by
  decide

/-- Claim C6 as amended: the advances must be 8*64 then 0*64 (the first
glyph's advance is what separates the two placements, since each advance
is applied after its glyph is placed); then compositing the two 1×1
intensity-255 glyphs with zero offsets yields a canvas 9 columns wide and
1 row high whose columns 0 and 8 equal 255 while every other column
equals 0. -/
theorem c6_amended_scenario_a :
    ((draw_complex_glyph [grayGlyph 512, grayGlyph 0]).map fun o =>
      (o.width, o.height, (List.range 9).map o.pixels)).toOption =
      some (9, 1, [255, 0, 0, 0, 0, 0, 0, 0, 255]) := by
  decide

end ClaimC6

section ClaimC8

/-- Claim C8: for every glyph sequence in which every glyph has glyph id
0, no glyph is placed, the buffer pointer stays NULL, and
draw_complex_glyph fails with the empty-shape error, returning no
bitmap. -/
theorem c8_all_zero_fails (gs : List GlyphInput)
    (h : ∀ g ∈ gs, g.codepoint = 0) :
    draw_complex_glyph gs = .error .emptyShapeResult := by
  rw [draw_complex_glyph_eq, drawRun_all_zero gs 0 CState.init h]
  rfl

/-- Witness for C8: a concrete one-glyph run of glyph id 0 fails with the
empty-shape error. -/
theorem c8_all_zero_fails_witness :
    draw_complex_glyph [zeroGlyph] = .error .emptyShapeResult :=
  c8_all_zero_fails [zeroGlyph] (by decide)

end ClaimC8

section ClaimC10

/-- Claim C10: a glyph with glyph id 0 leaves the entire compositing
state unchanged — the step returns the state itself (same cursor, canvas
dimensions, pixels and representative metrics, with the skipped glyph's
x_offset, y_offset and x_advance all ignored), and the rest of the run
continues from that identical state, so no later glyph's placement is
shifted. -/
theorem c10_zero_glyph_no_effect (i : ℕ) (st : CState) (gl : GlyphInput)
    (rest : List GlyphInput) (h : gl.codepoint = 0) :
    drawStep i st gl = .ok st ∧
    drawRun i st (gl :: rest) = drawRun (i + 1) st rest := by
  refine ⟨drawStep_skip i st gl h, ?_⟩
  rw [drawRun_cons, drawStep_skip i st gl h]
  rfl

/-- Witness for C10: the concrete id-0 glyph with nonzero offsets and
advance is skipped from the initial state. -/
theorem c10_zero_glyph_no_effect_witness :
    drawStep 0 CState.init zeroGlyph = .ok CState.init ∧
    drawRun 0 CState.init [zeroGlyph] = drawRun 1 CState.init [] :=
  c10_zero_glyph_no_effect 0 CState.init zeroGlyph [] rfl

end ClaimC10

section ClaimC7

/-- Claim C7: over any successful draw, the canvas dimensions never
decrease from one placed glyph to the next (the buffer dimensions after
processing `pre ++ [gl]` dominate those after `pre`), and the returned
canvas covers every placed glyph: its width is at least
ceil(x_i + stride_i) and its height at least ceil(y_i + rows_i), where
`(x_i, y_i)` is the cursor position at which glyph `i` was placed (the
cursor after adding the glyph's shaping offsets, held in 1/64 pixel
units). -/
theorem c7_canvas_monotone_covers (pre : List GlyphInput) (gl : GlyphInput)
    (post : List GlyphInput) (stPre stPost : CState) (out : CompResult)
    (hpre : drawRun 0 CState.init pre = .ok stPre)
    (hpost : drawRun 0 CState.init (pre ++ [gl]) = .ok stPost)
    (hout : draw_complex_glyph (pre ++ gl :: post) = .ok out) :
    (stPre.g.width ≤ stPost.g.width ∧ stPre.g.height ≤ stPost.g.height) ∧
    (gl.codepoint ≠ 0 →
      ceil64 (stPre.x + gl.x_offset + 64 * gl.bitmap.pitch) ≤ (out.width : ℤ) ∧
      ceil64 (stPre.y - gl.y_offset + 64 * gl.bitmap.rows) ≤ (out.height : ℤ)) := by
  have hinv0 : InvCS CState.init := ⟨rfl, rfl⟩
  have hinvPre := drawRun_inv pre 0 CState.init stPre hinv0 hpre
  have hstep := drawRun_snoc_step pre gl stPre stPost hpre hpost
  have hinvPost := drawStep_inv pre.length stPre gl stPost hinvPre.1 hstep
  have hsplit : pre ++ gl :: post = (pre ++ [gl]) ++ post := by simp
  rw [hsplit, draw_complex_glyph_eq,
    drawRun_append (pre ++ [gl]) 0 CState.init post, hpost] at hout
  have hout2 : (drawRun (0 + (pre ++ [gl]).length) stPost post).bind (fun st =>
      match st.g.buf with
      | none => (.error .emptyShapeResult : Except CompositeError CompResult)
      | some b => .ok ⟨b, st.g.metrics, st.g.width, st.g.height⟩) = .ok out := hout
  cases hfin : drawRun (0 + (pre ++ [gl]).length) stPost post with
  | error e =>
      rw [hfin] at hout2
      exact Except.noConfusion hout2
  | ok stFin =>
      rw [hfin] at hout2
      have hinvFin := drawRun_inv post _ stPost stFin hinvPost.1 hfin
      have hdims : out.width = stFin.g.width ∧ out.height = stFin.g.height := by
        have h2 : (match stFin.g.buf with
            | none => (.error .emptyShapeResult : Except CompositeError CompResult)
            | some b => .ok ⟨b, stFin.g.metrics, stFin.g.width, stFin.g.height⟩) =
            .ok out := hout2
        cases hbuf : stFin.g.buf with
        | none =>
            rw [hbuf] at h2
            exact Except.noConfusion h2
        | some b =>
            rw [hbuf] at h2
            have h3 := Except.ok.inj h2
            rw [← h3]
            exact ⟨rfl, rfl⟩
      refine ⟨⟨?_, ?_⟩, ?_⟩
      · rw [hinvPre.1.1, hinvPost.1.1]
        exact hinvPost.2.1
      · rw [hinvPre.1.2, hinvPost.1.2]
        exact hinvPost.2.2
      · intro hcp
        rcases drawStep_ok_cases pre.length stPre gl stPost hstep with
          ⟨hc, _⟩ | ⟨_, hplace⟩
        · exact absurd hc hcp
        constructor
        · have h1 : (ceil64 (stPre.x + gl.x_offset + 64 * gl.bitmap.pitch)).toNat ≤
              stPost.width := by
            rw [hplace]
            exact placeGlyph_width_cover pre.length stPre gl
          have h4 : (ceil64 (stPre.x + gl.x_offset + 64 * gl.bitmap.pitch)).toNat ≤
              out.width := by
            have h2 : stPost.width ≤ stFin.width := hinvFin.2.1
            have h3 : out.width = stFin.width := by rw [hdims.1, hinvFin.1.1]
            omega
          calc ceil64 (stPre.x + gl.x_offset + 64 * gl.bitmap.pitch) ≤
              ((ceil64 (stPre.x + gl.x_offset + 64 * gl.bitmap.pitch)).toNat : ℤ) :=
                Int.self_le_toNat _
            _ ≤ (out.width : ℤ) := by exact_mod_cast h4
        · have h1 : (ceil64 (stPre.y - gl.y_offset + 64 * gl.bitmap.rows)).toNat ≤
              stPost.height := by
            rw [hplace]
            exact placeGlyph_height_cover pre.length stPre gl
          have h4 : (ceil64 (stPre.y - gl.y_offset + 64 * gl.bitmap.rows)).toNat ≤
              out.height := by
            have h2 : stPost.height ≤ stFin.height := hinvFin.2.2
            have h3 : out.height = stFin.height := by rw [hdims.2, hinvFin.1.2]
            omega
          calc ceil64 (stPre.y - gl.y_offset + 64 * gl.bitmap.rows) ≤
              ((ceil64 (stPre.y - gl.y_offset + 64 * gl.bitmap.rows)).toNat : ℤ) :=
                Int.self_le_toNat _
            _ ≤ (out.height : ℤ) := by exact_mod_cast h4

/-- Witness for C7: for the one-glyph run of the 1×1 gray glyph (placed
at cursor 0), the returned canvas width 1 is at least the ceiled right
edge of the placed glyph. -/
theorem c7_canvas_monotone_covers_witness :
    ceil64 (CState.init.x + (grayGlyph 0).x_offset + 64 * (grayGlyph 0).bitmap.pitch) ≤
      (1 : ℤ) := by
  cases hpost : drawRun 0 CState.init ([] ++ [grayGlyph 0]) with
  | error e =>
      have hsome : (drawRun 0 CState.init ([] ++ [grayGlyph 0])).toOption.isSome = true := by
        decide
      rw [hpost] at hsome
      exact Bool.noConfusion hsome
  | ok stPost =>
      cases hout : draw_complex_glyph ([] ++ grayGlyph 0 :: []) with
      | error e =>
          have hsome : (draw_complex_glyph ([] ++ grayGlyph 0 :: [])).toOption.isSome = true := by
            decide
          rw [hout] at hsome
          exact Bool.noConfusion hsome
      | ok out =>
          have h := (c7_canvas_monotone_covers [] (grayGlyph 0) [] CState.init stPost out
            rfl hpost hout).2 (by decide)
          have hw : out.width = 1 := by
            have hone : ((draw_complex_glyph [grayGlyph 0]).map fun o => o.width).toOption =
                some 1 := by decide
            rw [show ([] ++ grayGlyph 0 :: []) = [grayGlyph 0] from rfl] at hout
            rw [hout] at hone
            exact Option.some.inj hone
          rw [hw] at h
          exact_mod_cast h.1

end ClaimC7

end Kitty
